import Mathlib

set_option maxHeartbeats 1000000

/-!
Verification development for the `polyjson` Go package: a JSON codec that
preserves concrete runtime type identity for values stored behind
interface-typed fields, by wrapping such values as `{typeID: content}`.

The embedding below models the two source files (`marshal` side and
`unmarshal.go`) over an explicit universe of Go values (`Val`) and Go types
(`GoType`).  Machinery the repository delegates to external libraries
(`encoding/json` scalar primitives, `gjson` parsing) is modelled only as far
as the repository's own control flow observes it; each such spot is marked
in a doc comment.  JSON bytes are modelled as parsed JSON trees; the one
place where the byte-level representation is observable inside the
repository's own logic (a `[]byte` stored into a `map[string]any`, which
`encoding/json` re-encodes as a base64 string rather than embedding raw)
is modelled explicitly via `renderJson` and `base64Encode`.
-/

namespace Polyjson

/-- Parsed JSON documents.  Objects keep their entries in document order
(duplicate keys allowed, as in a raw document); numbers are modelled as
integers, which covers every numeric literal the claims exercise. -/
inductive Json where
  | null
  | bool (b : Bool)
  | num (n : Int)
  | str (s : String)
  | arr (elems : List Json)
  | obj (entries : List (String × Json))

/-- UTF-8 bytes of one code point (as `String.toUTF8` produces per char). -/
def utf8Char (c : Nat) : List Nat :=
  if c < 0x80 then [c]
  else if c < 0x800 then [0xC0 + c / 64, 0x80 + c % 64]
  else if c < 0x10000 then [0xE0 + c / 4096, 0x80 + c / 64 % 64, 0x80 + c % 64]
  else [0xF0 + c / 262144, 0x80 + c / 4096 % 64, 0x80 + c / 64 % 64, 0x80 + c % 64]

/-- UTF-8 byte sequence of a string. -/
def utf8Bytes (s : String) : List Nat :=
  (s.data.map (fun c => utf8Char c.toNat)).flatten

/-- Digit of the standard base64 alphabet (RFC 4648, as used by
`encoding/json` for `[]byte` values). -/
def b64Char (n : Nat) : Char :=
  "ABCDEFGHIJKLMNOPQRSTUVWXYZabcdefghijklmnopqrstuvwxyz0123456789+/".toList.getD n 'A'

/-- Standard base64 encoding of a byte list, with `=` padding. -/
def base64Chunks : List Nat → String
  | [] => ""
  | [a] => String.mk [b64Char (a / 4), b64Char (a % 4 * 16)] ++ "=="
  | [a, b] => String.mk [b64Char (a / 4), b64Char (a % 4 * 16 + b / 16), b64Char (b % 16 * 4)] ++ "="
  | a :: b :: c :: rest =>
      String.mk [b64Char (a / 4), b64Char (a % 4 * 16 + b / 16), b64Char (b % 16 * 4 + c / 64),
        b64Char (c % 64)] ++ base64Chunks rest

/-- Base64 encoding of the UTF-8 bytes of a string.  Models what
`encoding/json` does to a `[]byte` value stored in a `map[string]any`. -/
def base64Encode (s : String) : String :=
  base64Chunks (utf8Bytes s)

def hexDigit (n : Nat) : Char :=
  "0123456789abcdef".toList.getD n '0'

/-- JSON string escaping for one character.  Models the subset of
`encoding/json`'s escaping that the exercised inputs can hit (quote,
backslash, control characters); the HTML escapes of `<`, `>`, `&` are a
detail of the delegated standard library never reached by the claims. -/
def escapeChar (c : Char) : String :=
  if c = '"' then "\\\""
  else if c = '\\' then "\\\\"
  else if c.toNat < 32 then "\\u00" ++ String.mk [hexDigit (c.toNat / 16), hexDigit (c.toNat % 16)]
  else String.mk [c]

mutual

/-- Rendering of a JSON tree to its compact textual form, as
`encoding/json.Marshal` emits it (no whitespace, map keys assumed already
ordered by the caller). -/
def renderJson : Json → String
  | .null => "null"
  | .bool true => "true"
  | .bool false => "false"
  | .num n => toString n
  | .str s => "\"" ++ String.join (s.toList.map escapeChar) ++ "\""
  | .arr es => "[" ++ renderArr es ++ "]"
  | .obj es => "\x7b" ++ renderObj es ++ "\x7d"

def renderArr : List Json → String
  | [] => ""
  | [j] => renderJson j
  | j :: rest => renderJson j ++ "," ++ renderArr rest

def renderObj : List (String × Json) → String
  | [] => ""
  | [(k, j)] => "\"" ++ String.join (k.toList.map escapeChar) ++ "\":" ++ renderJson j
  | (k, j) :: rest =>
      "\"" ++ String.join (k.toList.map escapeChar) ++ "\":" ++ renderJson j ++ "," ++ renderObj rest

end

/-- Go types, as the reflection-driven traversal distinguishes them
(`reflect.Kind` taxonomy: Interface, Pointer, Map, Struct, Slice, scalars).
`structT` fields are `(name, json tag, exported?, declared type)` in source
order; `vms`/`pms` model Go method sets: the method set of the struct type
itself is `vms`, that of a pointer to it is `vms ++ pms`
(pointer-receiver methods). -/
inductive GoType where
  | ifaceT (methods : List String)
  | ptrT (elem : GoType)
  | mapT (key elem : GoType)
  | structT (name : String) (fields : List (String × String × Bool × GoType))
      (vms pms : List String)
  | sliceT (elem : GoType)
  | intT
  | strT
  | boolT

/-- The string `fmt`'s `%T` verb prints for a value of the given dynamic
type.  Struct types print their qualified name, carried by the model. -/
def typeName : GoType → String
  | .ifaceT _ => "interface {}"
  | .ptrT t => "*" ++ typeName t
  | .mapT k v => "map[" ++ typeName k ++ "]" ++ typeName v
  | .structT n _ _ _ => n
  | .sliceT t => "[]" ++ typeName t
  | .intT => "int"
  | .strT => "string"
  | .boolT => "bool"

/-- Names of the methods in the method set of a Go type: a struct has its
value-receiver methods; a pointer to a struct additionally has the
pointer-receiver methods; other modelled types have none. -/
def methodSet : GoType → List String
  | .structT _ _ vms _ => vms
  | .ptrT (.structT _ _ vms pms) => vms ++ pms
  | _ => []

/-- reflect's `Type.AssignableTo(target)` for the one case the source
consults it: `target` of interface kind; true iff the type's method set
contains every method of the interface. -/
def assignableTo (t target : GoType) : Bool :=
  match target with
  | .ifaceT ms => ms.all (fun m => (methodSet t).contains m)
  | _ => false

/-- Go values as `reflect.Value` exposes them to the traversal.  Each value
carries enough declared-type information to recover reflect's `Type` of the
slot it sits in (`typeOf`).  `vIface`/`vPtr` hold `none` for the untyped-nil
interface resp. nil pointer; `vMap` holds `none` for a nil map.  Map entries
are an association list standing for the (unordered) Go map. -/
inductive Val where
  | vIface (methods : List String) (dyn : Option Val)
  | vPtr (elemT : GoType) (p : Option Val)
  | vMap (keyT valT : GoType) (entries : Option (List (Val × Val)))
  | vStruct (name : String) (fields : List ((String × String × Bool × GoType) × Val))
      (vms pms : List String)
  | vSlice (elemT : GoType) (elems : List Val)
  | vInt (n : Int)
  | vStr (s : String)
  | vBool (b : Bool)

/-- reflect's `Value.Type()` of a value. -/
def typeOf : Val → GoType
  | .vIface ms _ => .ifaceT ms
  | .vPtr t _ => .ptrT t
  | .vMap k v _ => .mapT k v
  | .vStruct n fs vms pms => .structT n (fs.map (fun f => f.1)) vms pms
  | .vSlice t _ => .sliceT t
  | .vInt _ => .intT
  | .vStr _ => .strT
  | .vBool _ => .boolT

mutual

/-- `reflect.New(t).Elem()`: the zero value of a type. -/
def zeroVal : GoType → Val
  | .ifaceT ms => .vIface ms none
  | .ptrT t => .vPtr t none
  | .mapT k v => .vMap k v none
  | .structT n fs vms pms => .vStruct n (zeroFields fs) vms pms
  | .sliceT t => .vSlice t []
  | .intT => .vInt 0
  | .strT => .vStr ""
  | .boolT => .vBool false

def zeroFields : List (String × String × Bool × GoType) →
    List ((String × String × Bool × GoType) × Val)
  | [] => []
  | f :: rest => (f, zeroVal f.2.2.2) :: zeroFields rest

end

/-- Go `==` on values, as map insertion (`SetMapIndex`) compares keys.
Only string-kind keys survive `unstringifyMapKey`, so these scalar shapes
are the only ones that can reach a key comparison in this codebase. -/
def valEq (a b : Val) : Bool :=
  match a, b with
  | .vStr x, .vStr y => x == y
  | .vInt x, .vInt y => x == y
  | .vBool x, .vBool y => x == y
  | _, _ => false

/-- Error values, one constructor per `fmt.Errorf` site of the source,
carrying the data its format verbs print.  `ctx` is a `%w`-wrap with the
leading context text.  `goPanic` is not an error value at all but the model
of an uncatchable runtime panic unwinding the call; wrapping never applies
to it (`wrapErr`). -/
inductive Err where
  | stringifyKeyErr (typeN : String)
  | unstringifyKeyErr (typeN : String) (s : String)
  | typeIDOfErr (typeN : String) (inner : String)
  | notPointerDst (typeN : String)
  | wrapperKeyCount (n : Nat)
  | newByTypeIDErr (typeID : String) (inner : String)
  | assignErr (toTypeN : String)
  | stdErr (s : String)
  | ctx (c : String) (e : Err)
  | goPanic (s : String)

/-- `fmt.Errorf("...: %w", err)` wrapping; a panic is not an error value
and unwinds past every wrap site unchanged. -/
def wrapErr (c : String) : Err → Err
  | .goPanic s => .goPanic s
  | e => .ctx c e

/-- Whether the outcome models an uncatchable abort rather than an
ordinary returned error value. -/
def Err.isPanic : Err → Bool
  | .goPanic _ => true
  | _ => false

/-- `TypeID is an unique identifier of a type` (src/unnamed/part_000:24). -/
abbrev TypeID := String

/-- The `TypeIDHandler` collaborator (src/unnamed/part_000:27-42):
`TypeIDOf` maps a sample (a dynamic value) to its `TypeID`; `NewByTypeID`
returns a pointer to a fresh object of the type bound to the `TypeID`.
Its failures are its own and surface as wrapped message strings. -/
structure Resolver where
  TypeIDOf : Val → Except String TypeID
  NewByTypeID : TypeID → Except String Val

/-- `stringifyMapKey` (src/unnamed/part_000:207-213): string-kind keys pass
through; any other kind errors, naming the key's runtime type (`%T`). -/
def stringifyMapKey (mapKey : Val) : Except Err String :=
  match mapKey with
  | .vStr s => .ok s
  | k => .error (.stringifyKeyErr (typeName (typeOf k)))

/-- `unstringifyMapKey` (src/unmarshal.go:25-32): sets a string-kind key
slot from its wire string; any other kind errors, naming the slot's runtime
type (`%T`) and the offending string. -/
def unstringifyMapKey (mapKey : Val) (s : String) : Except Err Val :=
  match mapKey with
  | .vStr _ => .ok (.vStr s)
  | k => .error (.unstringifyKeyErr (typeName (typeOf k)) s)

mutual

/-- `encoding/json.Marshal`, modelled as far as the repository's delegation
sites can reach it within the claims' scope: scalars directly; pointers and
interfaces unwrap (nil emits `null`); slices element-wise with no type
tags.  Struct/map values inside a delegated (slice) subtree are outside
every claim and yield an explicit model-boundary error. -/
def stdMarshal : Val → Except Err Json
  | .vInt n => .ok (.num n)
  | .vStr s => .ok (.str s)
  | .vBool b => .ok (.bool b)
  | .vIface _ none => .ok .null
  | .vIface _ (some d) => stdMarshal d
  | .vPtr _ none => .ok .null
  | .vPtr _ (some p) => stdMarshal p
  | .vSlice _ es => do .ok (.arr (← stdMarshalList es))
  | .vMap _ _ _ => .error (.stdErr "model boundary: std composite encode")
  | .vStruct _ _ _ _ => .error (.stdErr "model boundary: std composite encode")

def stdMarshalList : List Val → Except Err (List Json)
  | [] => .ok []
  | v :: rest => do .ok ((← stdMarshal v) :: (← stdMarshalList rest))

end

mutual

/-- `encoding/json.Unmarshal` into an addressable destination, modelled for
the shapes the repository delegates within the claims' scope: JSON `null`
is a no-op (the standard library's documented behavior); a scalar must
match the destination's kind, a mismatch being the standard type error;
an array decodes element-wise into a slice destination.  Composite
destinations under the std path are outside every claim and yield an
explicit model-boundary error. -/
def stdUnmarshal (j : Json) (dst : Val) : Except Err Val :=
  match j with
  | .null => .ok dst
  | .num n =>
    match dst with
    | .vInt _ => .ok (.vInt n)
    | d => .error (.stdErr ("cannot unmarshal number into " ++ typeName (typeOf d)))
  | .str s =>
    match dst with
    | .vStr _ => .ok (.vStr s)
    | d => .error (.stdErr ("cannot unmarshal string into " ++ typeName (typeOf d)))
  | .bool b =>
    match dst with
    | .vBool _ => .ok (.vBool b)
    | d => .error (.stdErr ("cannot unmarshal bool into " ++ typeName (typeOf d)))
  | .arr es =>
    match dst with
    | .vSlice elemT _ => do .ok (.vSlice elemT (← stdUnmarshalList es elemT))
    | d => .error (.stdErr ("cannot unmarshal array into " ++ typeName (typeOf d)))
  | .obj _ => .error (.stdErr "model boundary: std composite decode")

def stdUnmarshalList (es : List Json) (elemT : GoType) : Except Err (List Val) :=
  match es with
  | [] => .ok []
  | e :: rest => do .ok ((← stdUnmarshal e (zeroVal elemT)) :: (← stdUnmarshalList rest elemT))

end

/-- `reflect.ValueOf(v.Interface())`: the dynamic value seen through a
slot.  Invalid (`none`) exactly for an interface holding untyped nil; any
non-interface value yields itself. -/
def dynOf : Val → Option Val
  | .vIface _ none => none
  | .vIface _ (some d) => some d
  | v => some v

/-- One entry of `marshaledFields` (a Go `map[string]any`) before the final
`json.Marshal`: the struct branch stores `json.RawMessage(b)` (embedded raw
in the output); the map branch's non-interface case stores the plain
`[]byte` `b` (which `encoding/json` re-encodes as a base64 string, since
only `json.RawMessage` is embedded verbatim); interface slots store the
one-entry `map[TypeID]json.RawMessage` wrapper. -/
inductive MF where
  | raw (j : Json)
  | bytes (j : Json)
  | wrapped (tid : TypeID) (j : Json)

/-- How the final `json.Marshal(marshaledFields)` renders one entry. -/
def renderMF : MF → Json
  | .raw j => j
  | .bytes j => .str (base64Encode (renderJson j))
  | .wrapped tid j => .obj [(tid, j)]

/-- Assignment `marshaledFields[name] = x` into the Go map: replace an
existing key's entry, else add the entry. -/
def mfInsert (m : List (String × MF)) (k : String) (x : MF) : List (String × MF) :=
  match m with
  | [] => [(k, x)]
  | (k', y) :: rest => if k' = k then (k, x) :: rest else (k', y) :: mfInsert rest k x

/-- Byte-lexicographic `≤` on strings (code-point order coincides with
UTF-8 byte order), the order in which `encoding/json.Marshal` emits the
keys of a Go map. -/
def charListLe : List Char → List Char → Bool
  | [], _ => true
  | _ :: _, [] => false
  | a :: as, b :: bs =>
    if a.toNat < b.toNat then true
    else if b.toNat < a.toNat then false
    else charListLe as bs

def strLe (a b : String) : Bool := charListLe a.data b.data

def insertSortedMF (p : String × MF) : List (String × MF) → List (String × MF)
  | [] => [p]
  | q :: rest => if strLe p.1 q.1 then p :: q :: rest else q :: insertSortedMF p rest

def sortMF (l : List (String × MF)) : List (String × MF) := l.foldr insertSortedMF []

/-- The final `json.Marshal(marshaledFields)`: emit the entries of the Go
map as a JSON object, keys in sorted order, each entry rendered per its
dynamic type (`renderMF`). -/
def finishFields (m : List (String × MF)) : Json :=
  .obj ((sortMF m).map (fun p => (p.1, renderMF p.2)))

/-- The wire field name of a struct field: the first comma-separated word
of its `json` tag if nonempty, else the field's own name.  The source
computes exactly this expression twice, once on each side
(part_000:168-173 and unmarshal.go:129-134); `splitComma` models
`strings.Split(tag, ",")`. -/
def splitCommaChars : List Char → List Char → List String
  | [], cur => [String.mk cur.reverse]
  | c :: rest, cur =>
    if c = ',' then String.mk cur.reverse :: splitCommaChars rest []
    else splitCommaChars rest (c :: cur)

def splitComma (s : String) : List String := splitCommaChars s.data []

def jsonFieldNameOf (name tag : String) : String :=
  let w := (splitComma tag).headD ""
  if 0 < w.length then w else name

mutual

/-- `marshal` (src/unnamed/part_000:76-205): the recursive encoder.
Interfaces unwrap to their dynamic value (untyped nil emits `null`);
pointers dereference (nil emits `null`); maps and structs collect their
entries into `marshaledFields` and emit it via the standard library;
slices/arrays and scalars delegate to `encoding/json` unchanged. -/
def marshal (v : Val) (r : Resolver) : Except Err Json :=
  match v with
  | .vIface _ dyn =>
    match dyn with
    | none => .ok .null
    | some d => marshal d r
  | .vPtr _ p =>
    match p with
    | none => .ok .null
    | some e => marshal e r
  | .vMap _ _ none => .ok (finishFields [])
  | .vMap _ valT (some es) =>
    match marshalMapEntries valT es r [] with
    | .error e => .error e
    | .ok m => .ok (finishFields m)
  | .vSlice t es => stdMarshal (.vSlice t es)
  | .vStruct name fs _ _ =>
    match marshalStructFields name fs 0 r [] with
    | .error e => .error e
    | .ok m => .ok (finishFields m)
  | .vInt n => stdMarshal (.vInt n)
  | .vStr s => stdMarshal (.vStr s)
  | .vBool b => stdMarshal (.vBool b)

/-- The map-entry loop of `marshal` (part_000:102-141).  Note the direct
(non-interface or absent-value) case stores the raw `[]byte` `b` into the
`map[string]any`, i.e. `MF.bytes` — not `json.RawMessage` as the struct
branch does.  Go map iteration order is unspecified; the model iterates the
association list in order, which is observationally equivalent except for
the choice among several failing entries. -/
def marshalMapEntries (valT : GoType) (es : List (Val × Val)) (r : Resolver)
    (acc : List (String × MF)) : Except Err (List (String × MF)) :=
  match es with
  | [] => .ok acc
  | (key, value) :: rest =>
    match stringifyMapKey key with
    | .error e =>
      .error (wrapErr ("unable to stringify map key of type " ++ typeName (typeOf key)) e)
    | .ok jsonFieldName =>
      match marshal value r with
      | .error e =>
        .error (wrapErr ("unable to serialize value of map-entry with key '" ++ jsonFieldName ++ "'") e)
      | .ok b =>
        match valT with
        | .ifaceT ms =>
          match dynOf value with
          | none => marshalMapEntries (.ifaceT ms) rest r (mfInsert acc jsonFieldName (.bytes b))
          | some d =>
            match r.TypeIDOf d with
            | .error msg => .error (.typeIDOfErr (typeName (typeOf d)) msg)
            | .ok typeID =>
              marshalMapEntries (.ifaceT ms) rest r (mfInsert acc jsonFieldName (.wrapped typeID b))
        | t => marshalMapEntries t rest r (mfInsert acc jsonFieldName (.bytes b))

/-- The struct-field loop of `marshal` (part_000:152-197): skip unexported
fields and fields tagged `"-"`; compute the wire name; recursively encode;
store `json.RawMessage(b)` directly unless the field's declared type is
interface kind with a present dynamic value, in which case store the
`{TypeID: content}` wrapper. -/
def marshalStructFields (structName : String) (fs : List ((String × String × Bool × GoType) × Val))
    (i : Nat) (r : Resolver) (acc : List (String × MF)) : Except Err (List (String × MF)) :=
  match fs with
  | [] => .ok acc
  | (fT, fV) :: rest =>
    if fT.2.2.1 = false then marshalStructFields structName rest (i + 1) r acc
    else if fT.2.1 = "-" then marshalStructFields structName rest (i + 1) r acc
    else
      let jsonFieldName := jsonFieldNameOf fT.1 fT.2.1
      match marshal fV r with
      | .error e =>
        .error (wrapErr ("unable to serialize data within field #" ++ toString i ++ ":" ++ fT.1 ++
          " of structure " ++ structName) e)
      | .ok b =>
        match fT.2.2.2 with
        | .ifaceT _ =>
          match dynOf fV with
          | none => marshalStructFields structName rest (i + 1) r (mfInsert acc jsonFieldName (.raw b))
          | some d =>
            match r.TypeIDOf d with
            | .error msg => .error (.typeIDOfErr (typeName (typeOf d)) msg)
            | .ok typeID =>
              marshalStructFields structName rest (i + 1) r
                (mfInsert acc jsonFieldName (.wrapped typeID b))
        | _ => marshalStructFields structName rest (i + 1) r (mfInsert acc jsonFieldName (.raw b))

end

/-- `MarshalWithTypeIDs` (part_000:70-72).  `reflect.ValueOf(obj)` of a nil
`any` is the invalid `reflect.Value`; the traversal's fall-through then
calls `v.Interface()`, which panics on the zero `Value` — modelled by the
`goPanic` outcome.  Otherwise encode the value. -/
def MarshalWithTypeIDs (obj : Option Val) (r : Resolver) : Except Err Json :=
  match obj with
  | none => .error (.goPanic "reflect: call of reflect.Value.Interface on zero Value")
  | some v => marshal v r

/-- Assignment into a Go `map[string]V`: replace the existing key's entry
or add a new one. -/
def mapPut {α : Type} : List (String × α) → String → α → List (String × α)
  | [], k, x => [(k, x)]
  | (k', y) :: rest, k, x => if k' = k then (k, x) :: rest else (k', y) :: mapPut rest k x

/-- Read access `m[k]` on a Go `map[string]V` (with the `ok` flag modelled
by `Option`). -/
def mapGet {α : Type} : List (String × α) → String → Option α
  | [], _ => none
  | (k', x) :: rest, k => if k' = k then some x else mapGet rest k

/-- `gjson.Result.ForEach`'s iteration sequence: an object passes its
key/value entries in document order; an array passes its elements with the
zero key (`key.Str` empty); any other existing value — including a literal
`null` — is passed back as one single iteration with the zero key. -/
def jsonForEachList : Json → List (String × Json)
  | .obj es => es
  | .arr es => es.map (fun e => ("", e))
  | j => [("", j)]

/-- `gjson.Result.Map()`: the entries of a JSON object collected into a Go
map (a later duplicate key overwrites an earlier one); an empty map for any
non-object value. -/
def jsonMapEntries (j : Json) : List (String × Json) :=
  match j with
  | .obj es => es.foldl (fun acc p => mapPut acc p.1 p.2) []
  | _ => []

/-- `SetMapIndex` on the modelled map: replace the entry whose key is
Go-`==` to the new key, else add the entry. -/
def setMapIndex (m : List (Val × Val)) (k v : Val) : List (Val × Val) :=
  match m with
  | [] => [(k, v)]
  | (k', v') :: rest => if valEq k' k then (k, v) :: rest else (k', v') :: setMapIndex rest k v

/-- The `indexMap` construction of the struct branch of `unmarshal`
(unmarshal.go:120-137): wire field name to field index, skipping fields
tagged `"-"` (unexported fields are NOT skipped here — they are filtered
later, at use). -/
def buildIndexMap : List (String × String × Bool × GoType) → Nat → List (String × Nat) →
    List (String × Nat)
  | [], _, acc => acc
  | fT :: rest, i, acc =>
    if fT.2.1 = "-" then buildIndexMap rest (i + 1) acc
    else buildIndexMap rest (i + 1) (mapPut acc (jsonFieldNameOf fT.1 fT.2.1) i)

/-- Outcome of a fuelled decoder run: `none` when the fuel artificially ran
out (never for sufficient fuel — the source recursion terminates on every
finite JSON document), otherwise the Go function's returned value or error.
`ExceptT Err Option α` unfolds to `Option (Except Err α)`. -/
abbrev M (α : Type) : Type := ExceptT Err Option α

def fuelOut {α : Type} : M α := ExceptT.mk none

def liftE {α : Type} : Except Err α → M α := fun x => ExceptT.mk (some x)

/-- `fmt.Errorf` wrapping applied to the error of a sub-run (panics and
fuel exhaustion pass through untouched). -/
def wrapM {α : Type} (c : String) (x : M α) : M α :=
  ExceptT.mk
    (match x.run with
     | none => none
     | some (.error e) => some (.error (wrapErr c e))
     | some (.ok a) => some (.ok a))

/-- The interface-slot assignment block of `unmarshalTo`
(src/unmarshal.go:229-247): after decoding into the resolver-vended
instance `contentOut`, assign `contentOut.Elem()` into the slot if its type
satisfies the declared interface (value-semantics case); else assign
`contentOut` itself if its type does (reference-receiver case); else fail
with the internal assignment-inconsistency error.  `fmt`'s `%T` verb on a
`reflect.Value` prints the literal string `reflect.Value`, so only the
target type's name reaches the message.  A `contentOut` that is not a
non-nil pointer cannot survive the preceding `unmarshal` call; on it,
`contentOut.Elem().Type()` would panic, which the unreachable arms model. -/
def assignBack (ms : List String) (contentOut : Val) : Except Err Val :=
  match contentOut with
  | .vPtr t (some inner) =>
    if assignableTo t (.ifaceT ms) then .ok (.vIface ms (some inner))
    else if assignableTo (.ptrT t) (.ifaceT ms) then .ok (.vIface ms (some (.vPtr t (some inner))))
    else .error (.assignErr (typeName (.ifaceT ms)))
  | _ => .error (.goPanic "reflect: call of reflect.Value.Elem on invalid or non-pointer Value")

mutual

/-- `unmarshal` (src/unmarshal.go:49-168): the recursive decoder.  `v` is
the destination handle; a non-pointer destination is an ordinary error.  A
nil pointer destination is repaired in place via `v.Set(reflect.New(...))`,
which panics when `v` is not addressable (`addr = false`: the handle came
from `reflect.ValueOf`, as at the top level and for resolver-vended
instances).  The destination behind the pointer is then dispatched by kind;
the updated destination is returned in place of Go's in-place mutation. -/
def unmarshal (fuel : Nat) (obj : Json) (v : Val) (addr : Bool) (r : Resolver) : M Val :=
  match fuel with
  | 0 => fuelOut
  | fuel + 1 =>
    match v with
    | .vPtr elemT p => do
      let e0 ← match p with
        | some e => pure e
        | none =>
          if addr then pure (zeroVal elemT)
          else liftE (.error (.goPanic "reflect: reflect.Value.Set using unaddressable value"))
      match e0 with
      | .vIface ms dyn =>
        -- unwrapping the interface: the recursion's own pointer check fails on it
        unmarshal fuel obj (.vIface ms dyn) true r
      | .vPtr t q => do
        let e1 ← unmarshal fuel obj (.vPtr t q) true r
        pure (.vPtr elemT (some e1))
      | .vMap kT vT entries => do
        -- delete all entries from the current map, then parse entries into it
        let cleared : Option (List (Val × Val)) :=
          match entries with
          | none => none
          | some _ => some []
        let es1 ← unmarshalMapEntries fuel kT vT (jsonForEachList obj) cleared r
        pure (.vPtr elemT (some (.vMap kT vT es1)))
      | .vSlice t es => do
        let e1 ← liftE (stdUnmarshal obj (.vSlice t es))
        pure (.vPtr elemT (some e1))
      | .vStruct name fs vms pms => do
        let indexMap := buildIndexMap (fs.map (fun f => f.1)) 0 []
        let fs1 ← unmarshalStructFields fuel fs indexMap (jsonForEachList obj) r
        pure (.vPtr elemT (some (.vStruct name fs1 vms pms)))
      | e0 => do
        let e1 ← liftE (stdUnmarshal obj e0)
        pure (.vPtr elemT (some e1))
    | v => liftE (.error (.notPointerDst (typeName (typeOf v))))

/-- The map-entry loop of `unmarshal` (unmarshal.go:89-110): for each
iterated entry, unstringify the key into a fresh zero key, decode the value
into a fresh zero element via `unmarshalTo`, initialize the map if it is
nil, and insert.  The first failure stops the iteration and is returned. -/
def unmarshalMapEntries (fuel : Nat) (keyT valT : GoType) (es : List (String × Json))
    (cur : Option (List (Val × Val))) (r : Resolver) : M (Option (List (Val × Val))) :=
  match fuel with
  | 0 => fuelOut
  | fuel + 1 =>
    match es with
    | [] => pure cur
    | (k, value) :: rest => do
      let keyValue ←
        match unstringifyMapKey (zeroVal keyT) k with
        | .error e => liftE (.error (wrapErr ("unable to unstringify key value '" ++ k ++ "'") e))
        | .ok kv => pure kv
      let valueValue ←
        wrapM ("unable to unmarshal JSON '" ++ renderJson value ++ "' of entry with key '" ++ k ++ "'")
          (unmarshalTo fuel (zeroVal valT) valT value r)
      unmarshalMapEntries fuel keyT valT rest
        (some (setMapIndex (cur.getD []) keyValue valueValue)) r

/-- The struct-field loop of `unmarshal` (unmarshal.go:141-162): look the
wire key up in `indexMap` (unknown keys are skipped), skip unexported
fields, decode the matched field in place via `unmarshalTo`.  The first
failure stops the iteration and is returned. -/
def unmarshalStructFields (fuel : Nat) (fields : List ((String × String × Bool × GoType) × Val))
    (indexMap : List (String × Nat)) (es : List (String × Json)) (r : Resolver) :
    M (List ((String × String × Bool × GoType) × Val)) :=
  match fuel with
  | 0 => fuelOut
  | fuel + 1 =>
    match es with
    | [] => pure fields
    | (k, value) :: rest =>
      match mapGet indexMap k with
      | none => unmarshalStructFields fuel fields indexMap rest r
      | some i =>
        match fields[i]? with
        | none => liftE (.error (.goPanic "reflect: Field index out of range"))
        | some (fT, fV) =>
          if fT.2.2.1 = false then unmarshalStructFields fuel fields indexMap rest r
          else do
            let fV1 ←
              wrapM ("unable to unmarshal JSON '" ++ renderJson value ++ "' of field '" ++ k ++ "'")
                (unmarshalTo fuel fV fT.2.2.2 value r)
            unmarshalStructFields fuel (fields.set i (fT, fV1)) indexMap rest r

/-- `unmarshalTo` (src/unmarshal.go:170-250): decode a JSON value into a
slot of declared type `outType`.  A pointer-typed slot receiving `null` is
zeroed.  An interface-typed slot receiving `null` is set to the absent
state; otherwise the value must be an object with exactly one key
(`{TypeID: content}`), the resolver vends a fresh instance for the TypeID,
the content is decoded into it, and the result is assigned back into the
slot (`assignBack`).  Any other slot decodes directly through `unmarshal`
on the slot's address. -/
def unmarshalTo (fuel : Nat) (out : Val) (outT : GoType) (value : Json) (r : Resolver) : M Val :=
  match fuel with
  | 0 => fuelOut
  | fuel + 1 =>
    match outT with
    | .ptrT pt =>
      match value with
      | .null => pure (zeroVal (.ptrT pt))
      | value => do
        let res ← wrapM "unable to unmarshal" (unmarshal fuel value (.vPtr (typeOf out) (some out)) false r)
        match res with
        | .vPtr _ (some out1) => pure out1
        | _ => liftE (.error (.goPanic "reflect: call of reflect.Value.Elem on invalid Value"))
    | .ifaceT ms =>
      match value with
      | .null => pure (zeroVal (.ifaceT ms))
      | value =>
        match jsonMapEntries value with
        | [(typeID, valueUnparsed)] => do
          let typedValuePtr ←
            match r.NewByTypeID typeID with
            | .error msg =>
              liftE (.error (.newByTypeIDErr typeID msg))
            | .ok p => pure p
          let res ← wrapM "unable to unmarshal" (unmarshal fuel valueUnparsed typedValuePtr false r)
          liftE (assignBack ms res)
        | m => liftE (.error (.wrapperKeyCount m.length))
    | _ => do
      let res ← wrapM "unable to unmarshal" (unmarshal fuel value (.vPtr (typeOf out) (some out)) false r)
      match res with
      | .vPtr _ (some out1) => pure out1
      | _ => liftE (.error (.goPanic "reflect: call of reflect.Value.Elem on invalid Value"))

end

/-- `UnmarshalWithTypeIDs` (unmarshal.go:44-47).  The destination handle is
an `any`: a nil `any` yields the invalid `reflect.Value`, whose
`Interface()` call inside the non-pointer error format panics; otherwise
the handle (never addressable, coming from `reflect.ValueOf`) is decoded
into.  The input bytes are modelled by their parsed JSON tree. -/
def UnmarshalWithTypeIDs (fuel : Nat) (b : Json) (dst : Option Val) (r : Resolver) : M Val :=
  match dst with
  | none => liftE (.error (.goPanic "reflect: call of reflect.Value.Interface on zero Value"))
  | some v => unmarshal fuel b v false r

/-- Whether the first list starts with the second. -/
def leadMatch : List Char → List Char → Bool
  | _, [] => true
  | [], _ :: _ => false
  | a :: as, b :: bs => a == b && leadMatch as bs

/-- Whether the first list contains the second as a contiguous run. -/
def scanMatch (hay needle : List Char) : Bool :=
  match hay with
  | [] => needle.isEmpty
  | _ :: rest => leadMatch hay needle || scanMatch rest needle

/-- Substring test on the character sequences of two strings. -/
def strContains (hay needle : String) : Bool := scanMatch hay.data needle.data

/-- Whether an error value, or any error it wraps, carries the given text
inside one of its payloads (the strings the `fmt` verbs interpolate). -/
def errMentions (needle : String) : Err → Bool
  | .stringifyKeyErr tn => strContains tn needle
  | .unstringifyKeyErr tn s => strContains tn needle || strContains s needle
  | .typeIDOfErr tn inner => strContains tn needle || strContains inner needle
  | .notPointerDst tn => strContains tn needle
  | .wrapperKeyCount _ => false
  | .newByTypeIDErr tid inner => strContains tid needle || strContains inner needle
  | .assignErr tn => strContains tn needle
  | .stdErr s => strContains s needle
  | .ctx c e => strContains c needle || errMentions needle e
  | .goPanic s => strContains s needle

/-- A resolver handling exactly the `int` type, in both directions, the way
the external registry would after `RegisterType(int(0))`. -/
def intReg : Resolver where
  TypeIDOf v :=
    match typeOf v with
    | .intT => .ok "int"
    | t => .error ("the type is not registered: " ++ typeName t)
  NewByTypeID tid :=
    if tid = "int" then .ok (.vPtr .intT (some (.vInt 0))) else .error "unknown TypeID"

/-- A resolver with an empty registry: every sample is unregistered and
every TypeID is unknown. -/
def emptyReg : Resolver where
  TypeIDOf _ := .error "the type is not registered"
  NewByTypeID _ := .error "unknown TypeID"

/-- A struct type implementing method `M` with a value receiver. -/
def S1T : GoType := .structT "main.S1" [] ["M"] []

/-- A struct type implementing method `M` with a pointer receiver only. -/
def S2T : GoType := .structT "main.S2" [] [] ["M"]

/-- A struct type implementing no methods. -/
def S3T : GoType := .structT "main.S3" [] [] []

/-- A resolver vending the three method-set fixtures by name. -/
def msReg : Resolver where
  TypeIDOf v := .ok (typeName (typeOf v))
  NewByTypeID tid :=
    if tid = "main.S1" then .ok (.vPtr S1T (some (zeroVal S1T)))
    else if tid = "main.S2" then .ok (.vPtr S2T (some (zeroVal S2T)))
    else if tid = "main.S3" then .ok (.vPtr S3T (some (zeroVal S3T)))
    else .error "unknown TypeID"

/-- **C2**: the claim states that a map entry whose declared value type is
not interface kind has its recursively encoded content embedded directly as
the entry's JSON value, with no wrapper and no re-encoding of the bytes.
The code instead stores the encoded bytes as a plain `[]byte` into the
intermediate `map[string]any` (part_000:127) — not as `json.RawMessage` as
the struct branch does (part_000:184) — so the final `json.Marshal`
re-encodes them as a base64 string: `map[string]int{"a": 1}` encodes to
`{"a":"MQ=="}` (base64 of the byte `'1'`), not to `{"a":1}`.  The second
conjunct shows the struct branch embedding the same content directly, as
the claim describes. -/
theorem C2_map_entry_bytes_base64_reencoded :
    MarshalWithTypeIDs (some (.vMap .strT .intT (some [(.vStr "a", .vInt 1)]))) intReg
      = .ok (.obj [("a", .str "MQ==")])
    ∧ MarshalWithTypeIDs (some (.vStruct "main.S" [(("a", "", true, .intT), .vInt 1)] [] [])) intReg
      = .ok (.obj [("a", .num 1)]) :=
  ⟨rfl, rfl⟩

/-- **C3**: the claim states that an absent value in an interface-declared
slot (struct field or map entry) encodes to JSON `null` and decodes back to
the absent state.  For a struct field this holds (second conjunct), and
decoding `null` into an interface slot restores the absent state without
error (third conjunct); but for a map entry the same `[]byte` slip as in C2
(part_000:126-128: the direct case also captures interface entries whose
dynamic value is absent) base64-encodes the bytes `null`, emitting
`{"k":"bnVsbA=="}` instead of `{"k":null}`. -/
theorem C3_absent_interface_map_entry_not_null :
    MarshalWithTypeIDs (some (.vMap .strT (.ifaceT []) (some [(.vStr "k", .vIface [] none)]))) intReg
      = .ok (.obj [("k", .str "bnVsbA==")])
    ∧ MarshalWithTypeIDs (some (.vStruct "main.S" [(("F", "", true, .ifaceT []), .vIface [] none)] [] [])) intReg
      = .ok (.obj [("F", .null)])
    ∧ unmarshalTo 5 (zeroVal (.ifaceT [])) (.ifaceT []) .null intReg
      = liftE (.ok (.vIface [] none)) :=
  ⟨rfl, rfl, rfl⟩

/-- **C1**: the claim states that for every registered type `T` and value
`v` of type `T` embedded in a container (struct field or map entry), with a
consistent resolver, decode ∘ encode restores the container.  It fails on
the code for a map container with a non-interface value type: with `int`
registered and the container `map[string]int{"k": 1}`, the encoder emits
`{"k":"MQ=="}` (the C2 base64 slip), and decoding those bytes back into a
`map[string]int` fails with the standard library's type error instead of
restoring the container. -/
theorem C1_roundtrip_fails_for_map_string_int :
    MarshalWithTypeIDs (some (.vMap .strT .intT (some [(.vStr "k", .vInt 1)]))) intReg
      = .ok (.obj [("k", .str "MQ==")])
    ∧ UnmarshalWithTypeIDs 100 (.obj [("k", .str "MQ==")])
        (some (.vPtr (.mapT .strT .intT) (some (.vMap .strT .intT (some []))))) intReg
      = liftE (.error (.ctx "unable to unmarshal JSON '\"MQ==\"' of entry with key 'k'"
          (.ctx "unable to unmarshal" (.stdErr "cannot unmarshal string into int")))) :=
  ⟨rfl, rfl⟩

/-- **C8**: map-key stringify and unstringify succeed for every string-kind
key in both directions, and fail for every other kind with an error naming
the key's runtime type. -/
theorem C8_key_codec_total_only_for_strings :
    (∀ s, stringifyMapKey (.vStr s) = .ok s)
    ∧ (∀ s t, unstringifyMapKey (.vStr t) s = .ok (.vStr s))
    ∧ (∀ k, typeOf k ≠ .strT →
        stringifyMapKey k = .error (.stringifyKeyErr (typeName (typeOf k))))
    ∧ (∀ k s, typeOf k ≠ .strT →
        unstringifyMapKey k s = .error (.unstringifyKeyErr (typeName (typeOf k)) s)) := by
  refine ⟨fun s => rfl, fun s t => rfl, fun k hk => ?_, fun k s hk => ?_⟩
  · cases k <;> first | rfl | exact absurd rfl hk
  · cases k <;> first | rfl | exact absurd rfl hk

/-- Witness for C8 at concrete keys: the string key `"k"` stringifies, and
the `int`-kind key `42` fails naming `int`. -/
theorem C8_witness :
    stringifyMapKey (.vStr "k") = .ok "k"
    ∧ typeOf (.vInt 42) ≠ .strT
    ∧ stringifyMapKey (.vInt 42) = .error (.stringifyKeyErr (typeName (typeOf (.vInt 42))))
    ∧ unstringifyMapKey (.vInt 42) "k"
        = .error (.unstringifyKeyErr (typeName (typeOf (.vInt 42))) "k") :=
  ⟨C8_key_codec_total_only_for_strings.1 "k",
   fun h => GoType.noConfusion h,
   C8_key_codec_total_only_for_strings.2.2.1 (.vInt 42) (fun h => GoType.noConfusion h),
   C8_key_codec_total_only_for_strings.2.2.2 (.vInt 42) "k" (fun h => GoType.noConfusion h)⟩

/-- **C4** counterexample: the claim states that every wrong-shaped
destination — including a nil pointer — yields an ordinary error value,
never an uncatchable abort.  With destination `(*int)(nil)` the code
reaches `v.Set(reflect.New(...))` on the unaddressable `reflect.ValueOf`
result (unmarshal.go:63-67) and panics. -/
theorem C4_nil_pointer_destination_panics :
    UnmarshalWithTypeIDs 5 (.obj []) (some (.vPtr .intT none)) intReg
      = liftE (.error (.goPanic "reflect: reflect.Value.Set using unaddressable value"))
    ∧ (Err.goPanic "reflect: reflect.Value.Set using unaddressable value").isPanic = true :=
  ⟨rfl, rfl⟩

/-- **C4** (amended): a non-pointer (and non-nil) destination handle does
return the ordinary non-pointer error value, which is not a panic; the nil
pointer half of the claim fails (see the counterexample). -/
theorem C4_nonpointer_destination_ordinary_error (fuel : Nat) (b : Json) (v : Val) (r : Resolver)
    (h : ∀ t p, v ≠ .vPtr t p) :
    UnmarshalWithTypeIDs (fuel + 1) b (some v) r
      = liftE (.error (.notPointerDst (typeName (typeOf v))))
    ∧ (Err.notPointerDst (typeName (typeOf v))).isPanic = false := by
  refine ⟨?_, rfl⟩
  cases v with
  | vPtr t p => exact absurd rfl (h t p)
  | _ => rfl

/-- Witness for C4 at a concrete non-pointer destination (`int`). -/
theorem C4_witness :
    (∀ t p, Val.vInt 5 ≠ Val.vPtr t p)
    ∧ UnmarshalWithTypeIDs 3 (.obj []) (some (.vInt 5)) intReg
        = liftE (.error (.notPointerDst "int")) :=
  ⟨fun _ _ h => Val.noConfusion h,
   (C4_nonpointer_destination_ordinary_error 2 (.obj []) (.vInt 5) intReg
     (fun _ _ h => Val.noConfusion h)).1⟩

theorem M_bind_ok {α β : Type} (a : α) (f : α → M β) : (liftE (.ok a) >>= f) = f a := rfl

theorem M_bind_err {α β : Type} (e : Err) (f : α → M β) :
    (liftE (.error e) >>= f) = liftE (.error e) := rfl

theorem M_pure_bind {α β : Type} (a : α) (f : α → M β) : (pure a >>= f : M β) = f a := rfl

theorem wrapM_liftE_ok {α : Type} (c : String) (a : α) :
    wrapM c (liftE (.ok a)) = liftE (.ok a) := rfl

/-- **C5**: decoding a non-null JSON value into an interface-declared slot
requires (after `gjson`'s `Map()` collection, which yields an empty map for
every non-object) exactly one key; zero or several keys fail with the
malformed-wrapper error carrying the key count.  The second conjunct shows
the failure fatal to the whole call on the spec's own example,
`{"x":{"a":1,"b":2}}` decoded into a struct whose field `x` is
interface-typed. -/
theorem C5_wrapper_needs_exactly_one_key (fuel : Nat) (out : Val) (ms : List String) (j : Json)
    (r : Resolver) (hnull : j ≠ .null) (hlen : (jsonMapEntries j).length ≠ 1) :
    unmarshalTo (fuel + 1) out (.ifaceT ms) j r
      = liftE (.error (.wrapperKeyCount (jsonMapEntries j).length))
    ∧ UnmarshalWithTypeIDs 10 (.obj [("x", .obj [("a", .num 1), ("b", .num 2)])])
        (some (.vPtr (.structT "main.S" [("x", "", true, .ifaceT [])] [] [])
          (some (.vStruct "main.S" [(("x", "", true, .ifaceT []), .vIface [] none)] [] []))))
        intReg
      = liftE (.error (.ctx "unable to unmarshal JSON '\x7b\"a\":1,\"b\":2\x7d' of field 'x'"
          (.wrapperKeyCount 2))) := by
  refine ⟨?_, rfl⟩
  cases j with
  | null => exact absurd rfl hnull
  | bool b => rfl
  | num n => rfl
  | str s => rfl
  | arr es => rfl
  | obj es =>
    rcases hl : jsonMapEntries (Json.obj es) with _ | ⟨⟨tid, vu⟩, _ | ⟨q, tail⟩⟩
    · simp [unmarshalTo, hl]
    · rw [hl] at hlen; simp at hlen
    · simp [unmarshalTo, hl]

/-- Witness for C5: the spec's malformed wrapper `{"a":1,"b":2}` has two
top-level keys and is rejected with the key count. -/
theorem C5_witness :
    (jsonMapEntries (Json.obj [("a", Json.num 1), ("b", Json.num 2)])).length ≠ 1
    ∧ unmarshalTo 5 (.vIface [] none) (.ifaceT [])
        (.obj [("a", Json.num 1), ("b", Json.num 2)]) intReg
      = liftE (.error (.wrapperKeyCount 2)) := by
  refine ⟨by decide, ?_⟩
  exact (C5_wrapper_needs_exactly_one_key 4 (.vIface [] none) []
    (.obj [("a", Json.num 1), ("b", Json.num 2)]) intReg
    (fun h => Json.noConfusion h) (by decide)).1

/-- **C7**: once the wrapper's TypeID has resolved to a fresh instance and
the content has decoded into it (necessarily leaving a non-nil pointer),
the interface slot receives the dereferenced value when its type satisfies
the declared interface; otherwise the reference itself when that satisfies
it; otherwise the internal assignment-inconsistency error — exactly the
three-way `AssignableTo` chain of unmarshal.go:229-247. -/
theorem C7_interface_slot_assignment (fuel : Nat) (out : Val) (ms : List String) (tid : TypeID)
    (vu : Json) (r : Resolver) (p : Val) (t : GoType) (inner : Val)
    (hres : r.NewByTypeID tid = .ok p)
    (hdec : unmarshal fuel vu p false r = liftE (.ok (.vPtr t (some inner)))) :
    unmarshalTo (fuel + 1) out (.ifaceT ms) (.obj [(tid, vu)]) r
      = liftE (if assignableTo t (.ifaceT ms) then .ok (.vIface ms (some inner))
          else if assignableTo (.ptrT t) (.ifaceT ms)
            then .ok (.vIface ms (some (.vPtr t (some inner))))
          else .error (.assignErr (typeName (.ifaceT ms)))) := by
  simp only [unmarshalTo, jsonMapEntries, List.foldl, mapPut, hres]
  rw [M_pure_bind, hdec, wrapM_liftE_ok, M_bind_ok]
  rfl

/-- Witness for C7 at the three concrete method-set fixtures: a
value-receiver type lands dereferenced, a pointer-receiver-only type lands
as the reference, and a method-less type trips the internal error. -/
theorem C7_witness :
    unmarshalTo 4 (.vIface ["M"] none) (.ifaceT ["M"]) (.obj [("main.S1", .obj [])]) msReg
      = liftE (.ok (.vIface ["M"] (some (zeroVal S1T))))
    ∧ unmarshalTo 4 (.vIface ["M"] none) (.ifaceT ["M"]) (.obj [("main.S2", .obj [])]) msReg
      = liftE (.ok (.vIface ["M"] (some (.vPtr S2T (some (zeroVal S2T))))))
    ∧ unmarshalTo 4 (.vIface ["M"] none) (.ifaceT ["M"]) (.obj [("main.S3", .obj [])]) msReg
      = liftE (.error (.assignErr (typeName (.ifaceT ["M"])))) :=
  ⟨C7_interface_slot_assignment 3 (.vIface ["M"] none) ["M"] "main.S1" (.obj []) msReg
     (.vPtr S1T (some (zeroVal S1T))) S1T (zeroVal S1T) rfl rfl,
   C7_interface_slot_assignment 3 (.vIface ["M"] none) ["M"] "main.S2" (.obj []) msReg
     (.vPtr S2T (some (zeroVal S2T))) S2T (zeroVal S2T) rfl rfl,
   C7_interface_slot_assignment 3 (.vIface ["M"] none) ["M"] "main.S3" (.obj []) msReg
     (.vPtr S3T (some (zeroVal S3T))) S3T (zeroVal S3T) rfl rfl⟩

/-- A struct-field loop containing an exported, non-skipped,
interface-declared field whose present dynamic value the resolver rejects
always ends in an error (whichever entry fails first). -/
theorem marshalStructFields_err_of_bad (name : String) (r : Resolver)
    (fT : String × String × Bool × GoType) (fV d : Val) (msg : String) (ms : List String)
    (hexp : fT.2.2.1 = true) (htag : fT.2.1 ≠ "-") (hif : fT.2.2.2 = .ifaceT ms)
    (hdyn : dynOf fV = some d) (hbad : r.TypeIDOf d = .error msg) :
    ∀ (fs : List ((String × String × Bool × GoType) × Val)) (i : Nat) (acc : List (String × MF)),
      (fT, fV) ∈ fs → ∃ e, marshalStructFields name fs i r acc = .error e := by
  intro fs
  induction fs with
  | nil => intro i acc h; cases h
  | cons hd tl ih =>
    intro i acc hmem
    obtain ⟨hT, hV⟩ := hd
    rcases List.mem_cons.mp hmem with heq | hmem'
    · obtain ⟨h1, h2⟩ := Prod.mk.injEq .. ▸ heq
      subst h1; subst h2
      simp only [marshalStructFields, hexp, htag, hif, reduceCtorEq, Bool.true_eq_false,
        if_false, if_neg htag]
      rcases hm : marshal fV r with e | b
      · exact ⟨_, rfl⟩
      · simp only [hdyn, hbad]
        exact ⟨_, rfl⟩
    · simp only [marshalStructFields]
      split
      · exact ih i.succ acc hmem'
      · split
        · exact ih i.succ acc hmem'
        · split
          · exact ⟨_, rfl⟩
          · split
            · split
              · exact ih i.succ _ hmem'
              · split
                · exact ⟨_, rfl⟩
                · exact ih i.succ _ hmem'
            · exact ih i.succ _ hmem'

/-- A map-entry loop over an interface-declared value type containing an
entry whose present dynamic value the resolver rejects always ends in an
error (whichever entry fails first). -/
theorem marshalMapEntries_err_of_bad (r : Resolver) (ms : List String) (key value d : Val)
    (msg : String) (hdyn : dynOf value = some d) (hbad : r.TypeIDOf d = .error msg) :
    ∀ (es : List (Val × Val)) (acc : List (String × MF)),
      (key, value) ∈ es → ∃ e, marshalMapEntries (.ifaceT ms) es r acc = .error e := by
  intro es
  induction es with
  | nil => intro acc h; cases h
  | cons hd tl ih =>
    intro acc hmem
    obtain ⟨hK, hV⟩ := hd
    rcases List.mem_cons.mp hmem with heq | hmem'
    · obtain ⟨h1, h2⟩ := Prod.mk.injEq .. ▸ heq
      subst h1; subst h2
      simp only [marshalMapEntries]
      rcases hk : stringifyMapKey key with e | s
      · exact ⟨_, rfl⟩
      · rcases hm : marshal value r with e | b
        · exact ⟨_, rfl⟩
        · simp only [hdyn, hbad]
          exact ⟨_, rfl⟩
    · simp only [marshalMapEntries]
      split
      · exact ⟨_, rfl⟩
      · split
        · exact ⟨_, rfl⟩
        · split
          · exact ih _ hmem'
          · split
            · exact ⟨_, rfl⟩
            · exact ih _ hmem'

/-- **C9** (amended): encoding a container holding, in a traversed
(exported, non-skipped) interface-declared slot, a present dynamic value
the resolver does not recognize always returns an error and no output
(first two conjuncts, for structs and maps).  The error names the runtime
type through the `unable to get TypeID of %T` wrap, but — contrary to the
claim's parenthetical — it is NOT wrapped with the field name or map key
when the failure is at the slot itself (third conjunct gives the exact
unwrapped error for a one-field struct; the counterexample exhibits it). -/
theorem C9_unregistered_encode_fails :
    (∀ (name : String) fs (vms pms : List String) (r : Resolver) fT fV d msg ms,
      (fT, fV) ∈ fs → fT.2.2.1 = true → fT.2.1 ≠ "-" → fT.2.2.2 = .ifaceT ms →
      dynOf fV = some d → r.TypeIDOf d = .error msg →
      ∃ e, MarshalWithTypeIDs (some (.vStruct name fs vms pms)) r = .error e)
    ∧ (∀ kT (ms : List String) es (r : Resolver) key value d msg,
        (key, value) ∈ es → dynOf value = some d → r.TypeIDOf d = .error msg →
        ∃ e, MarshalWithTypeIDs (some (.vMap kT (.ifaceT ms) (some es))) r = .error e)
    ∧ (∀ (n tag : String) (ms : List String) (name : String) (vms pms : List String)
        (r : Resolver) fV d msg b, tag ≠ "-" → dynOf fV = some d → marshal fV r = .ok b →
        r.TypeIDOf d = .error msg →
        MarshalWithTypeIDs (some (.vStruct name [((n, tag, true, .ifaceT ms), fV)] vms pms)) r
          = .error (.typeIDOfErr (typeName (typeOf d)) msg)) := by
  refine ⟨?_, ?_, ?_⟩
  · intro name fs vms pms r fT fV d msg ms hmem hexp htag hif hdyn hbad
    obtain ⟨e, he⟩ := marshalStructFields_err_of_bad name r fT fV d msg ms
      hexp htag hif hdyn hbad fs 0 [] hmem
    exact ⟨e, by simp only [MarshalWithTypeIDs, marshal, he]⟩
  · intro kT ms es r key value d msg hmem hdyn hbad
    obtain ⟨e, he⟩ := marshalMapEntries_err_of_bad r ms key value d msg hdyn hbad es [] hmem
    exact ⟨e, by simp only [MarshalWithTypeIDs, marshal, he]⟩
  · intro n tag ms name vms pms r fV d msg b htag hdyn hm hbad
    simp only [MarshalWithTypeIDs, marshal, marshalStructFields, reduceCtorEq,
      Bool.true_eq_false, if_false, if_neg htag, hm, hdyn, hbad]

/-- **C9** counterexample: at a one-field struct whose interface field
holds an unregistered `int`, the returned error is the bare
`unable to get TypeID of int` wrap — it does not mention the field name
`FieldX` anywhere, contradicting the claim's "wrapped with the field name
or map key". -/
theorem C9_error_not_wrapped_with_field_name :
    MarshalWithTypeIDs
        (some (.vStruct "main.S" [(("FieldX", "", true, .ifaceT []), .vIface [] (some (.vInt 7)))] [] []))
        emptyReg
      = .error (.typeIDOfErr "int" "the type is not registered")
    ∧ errMentions "FieldX" (.typeIDOfErr "int" "the type is not registered") = false :=
  ⟨rfl, rfl⟩

/-- Witness for C9 at the same concrete container: the bad slot is a member
of the field list and the whole encode errors with the type-naming error. -/
theorem C9_witness :
    ((("FieldX", "", true, GoType.ifaceT []), Val.vIface [] (some (.vInt 7)))
        ∈ [(("FieldX", "", true, GoType.ifaceT []), Val.vIface [] (some (.vInt 7)))])
    ∧ (∃ e, MarshalWithTypeIDs
        (some (.vStruct "main.S" [(("FieldX", "", true, .ifaceT []), .vIface [] (some (.vInt 7)))] [] []))
        emptyReg = .error e)
    ∧ MarshalWithTypeIDs
        (some (.vStruct "main.S" [(("FieldX", "", true, .ifaceT []), .vIface [] (some (.vInt 7)))] [] []))
        emptyReg
      = .error (.typeIDOfErr (typeName (typeOf (Val.vInt 7))) "the type is not registered") :=
  ⟨List.mem_singleton.mpr rfl,
   C9_unregistered_encode_fails.1 "main.S" _ [] [] emptyReg _ _ (.vInt 7)
     "the type is not registered" [] (List.mem_singleton.mpr rfl) rfl (by decide) rfl
     rfl rfl,
   C9_unregistered_encode_fails.2.2 "FieldX" "" [] "main.S" [] [] emptyReg
     (.vIface [] (some (.vInt 7))) (.vInt 7) "the type is not registered" (.num 7)
     (by decide) rfl rfl rfl⟩

theorem strData_append (a b : String) : (a ++ b).data = a.data ++ b.data := rfl

theorem strMk_data (w : String) : String.mk w.data = w := rfl

theorem splitCommaChars_no_comma (cs : List Char) :
    ∀ acc, ',' ∉ cs → splitCommaChars cs acc = [String.mk (acc.reverse ++ cs)] := by
  induction cs with
  | nil => intro acc _; simp [splitCommaChars]
  | cons c cs ih =>
    intro acc h
    rw [List.mem_cons] at h; push_neg at h
    have hc : ¬(c = ',') := fun hh => h.1 hh.symm
    simp only [splitCommaChars, if_neg hc]
    rw [ih (c :: acc) h.2]
    simp

theorem splitCommaChars_append_comma (cs : List Char) :
    ∀ acc rest, ',' ∉ cs → splitCommaChars (cs ++ ',' :: rest) acc
      = String.mk (acc.reverse ++ cs) :: splitCommaChars rest [] := by
  induction cs with
  | nil => intro acc rest _; simp [splitCommaChars]
  | cons c cs ih =>
    intro acc rest h
    rw [List.mem_cons] at h; push_neg at h
    have hc : ¬(c = ',') := fun hh => h.1 hh.symm
    simp only [List.cons_append, splitCommaChars, List.append_eq, if_neg hc]
    rw [ih (c :: acc) rest h.2]
    simp

theorem jsonFieldNameOf_first_word (name w rest : String) (h : ',' ∉ w.data) :
    jsonFieldNameOf name (w ++ "," ++ rest) = jsonFieldNameOf name w := by
  have hdata : (w ++ "," ++ rest).data = w.data ++ ',' :: rest.data := by
    rw [strData_append, strData_append]
    simp [List.append_assoc]
  unfold jsonFieldNameOf splitComma
  rw [hdata, splitCommaChars_append_comma w.data [] rest.data h,
    splitCommaChars_no_comma w.data [] h]
  simp [strMk_data]

theorem mfInsert_self_mem (acc : List (String × MF)) (k : String) (x : MF) :
    k ∈ (mfInsert acc k x).map Prod.fst := by
  induction acc with
  | nil => simp [mfInsert]
  | cons p rest ih =>
    obtain ⟨k0, y⟩ := p
    by_cases h : k0 = k <;> simp [mfInsert, h, ih]

theorem mfInsert_mono_mem (acc : List (String × MF)) (k' k : String) (x : MF)
    (h : k ∈ acc.map Prod.fst) : k ∈ (mfInsert acc k' x).map Prod.fst := by
  induction acc with
  | nil => cases h
  | cons p rest ih =>
    obtain ⟨k0, y⟩ := p
    simp only [List.map_cons, List.mem_cons] at h
    by_cases hb : k0 = k'
    · rcases h with h | h
      · subst hb; subst h; simp [mfInsert]
      · simp [mfInsert, hb, h]
    · rcases h with h | h
      · simp [mfInsert, hb, h]
      · simp [mfInsert, hb, ih h]

theorem sortMF_cons (p : String × MF) (l : List (String × MF)) :
    sortMF (p :: l) = insertSortedMF p (sortMF l) := rfl

theorem insertSortedMF_mem (p : String × MF) (l : List (String × MF)) (k : String) :
    k ∈ (insertSortedMF p l).map Prod.fst ↔ k = p.1 ∨ k ∈ l.map Prod.fst := by
  induction l with
  | nil => simp [insertSortedMF]
  | cons q rest ih =>
    simp only [insertSortedMF]
    by_cases h : strLe p.1 q.1 = true
    · rw [if_pos h]
      simp only [List.map_cons, List.mem_cons]
    · rw [if_neg h]
      simp only [List.map_cons, List.mem_cons] at ih ⊢
      rw [ih]
      tauto

theorem sortMF_mem (l : List (String × MF)) (k : String) :
    k ∈ (sortMF l).map Prod.fst ↔ k ∈ l.map Prod.fst := by
  induction l with
  | nil => simp [sortMF]
  | cons p rest ih =>
    rw [sortMF_cons, insertSortedMF_mem, ih]
    simp only [List.map_cons, List.mem_cons]

theorem marshalStructFields_keys_mono (name : String) (r : Resolver) :
    ∀ fs i acc m, marshalStructFields name fs i r acc = .ok m →
      ∀ k, k ∈ acc.map Prod.fst → k ∈ m.map Prod.fst := by
  intro fs
  induction fs with
  | nil =>
    intro i acc m hm k hk
    simp only [marshalStructFields, Except.ok.injEq] at hm
    exact hm ▸ hk
  | cons hd tl ih =>
    intro i acc m hm k hk
    obtain ⟨fT, fV⟩ := hd
    simp only [marshalStructFields] at hm
    split at hm
    · exact ih _ _ _ hm k hk
    · split at hm
      · exact ih _ _ _ hm k hk
      · split at hm
        · exact Except.noConfusion hm
        · split at hm
          · split at hm
            · exact ih _ _ _ hm k (mfInsert_mono_mem _ _ _ _ hk)
            · split at hm
              · exact Except.noConfusion hm
              · exact ih _ _ _ hm k (mfInsert_mono_mem _ _ _ _ hk)
          · exact ih _ _ _ hm k (mfInsert_mono_mem _ _ _ _ hk)

theorem marshalStructFields_key_of_mem (name : String) (r : Resolver)
    (fT : String × String × Bool × GoType) (fV : Val)
    (hexp : fT.2.2.1 = true) (htag : fT.2.1 ≠ "-") :
    ∀ fs i acc m, marshalStructFields name fs i r acc = .ok m → (fT, fV) ∈ fs →
      (jsonFieldNameOf fT.1 fT.2.1) ∈ m.map Prod.fst := by
  intro fs
  induction fs with
  | nil => intro i acc m _ hmem; cases hmem
  | cons hd tl ih =>
    intro i acc m hm hmem
    rcases List.mem_cons.mp hmem with heq | hmem'
    · subst heq
      simp only [marshalStructFields, hexp, reduceCtorEq, Bool.true_eq_false,
        if_false, if_neg htag] at hm
      split at hm
      · exact Except.noConfusion hm
      · split at hm
        · split at hm
          · exact marshalStructFields_keys_mono name r tl _ _ _ hm _ (mfInsert_self_mem _ _ _)
          · split at hm
            · exact Except.noConfusion hm
            · exact marshalStructFields_keys_mono name r tl _ _ _ hm _ (mfInsert_self_mem _ _ _)
        · exact marshalStructFields_keys_mono name r tl _ _ _ hm _ (mfInsert_self_mem _ _ _)
    · obtain ⟨hT, hV⟩ := hd
      simp only [marshalStructFields] at hm
      split at hm
      · exact ih _ _ _ hm hmem'
      · split at hm
        · exact ih _ _ _ hm hmem'
        · split at hm
          · exact Except.noConfusion hm
          · split at hm
            · split at hm
              · exact ih _ _ _ hm hmem'
              · split at hm
                · exact Except.noConfusion hm
                · exact ih _ _ _ hm hmem'
            · exact ih _ _ _ hm hmem'

theorem mapGet_mapPut_self {α : Type} (acc : List (String × α)) (k : String) (x : α) :
    mapGet (mapPut acc k x) k = some x := by
  induction acc with
  | nil => simp [mapPut, mapGet]
  | cons p rest ih =>
    obtain ⟨k0, y⟩ := p
    by_cases h : k0 = k <;> simp [mapPut, mapGet, h, ih]

theorem mapGet_mapPut_isSome {α : Type} (acc : List (String × α)) (k' k : String) (x : α)
    (h : (mapGet acc k).isSome = true) : (mapGet (mapPut acc k' x) k).isSome = true := by
  induction acc with
  | nil => simp [mapGet] at h
  | cons p rest ih =>
    obtain ⟨k0, y⟩ := p
    by_cases hb : k0 = k'
    · subst hb
      by_cases hk : k0 = k
      · simp [mapPut, mapGet, hk]
      · simp only [mapGet, if_neg hk] at h
        simp [mapPut, mapGet, hk, h]
    · by_cases hk : k0 = k
      · subst hk
        simp [mapPut, mapGet, hb]
      · simp only [mapGet, if_neg hk] at h
        simp [mapPut, mapGet, hb, hk, ih h]

theorem buildIndexMap_mapGet_mono (k : String) :
    ∀ fs i acc, (mapGet acc k).isSome = true →
      (mapGet (buildIndexMap fs i acc) k).isSome = true := by
  intro fs
  induction fs with
  | nil => intro i acc h; exact h
  | cons fT tl ih =>
    intro i acc h
    simp only [buildIndexMap]
    split
    · exact ih _ _ h
    · exact ih _ _ (mapGet_mapPut_isSome _ _ _ _ h)

theorem buildIndexMap_mapGet_of_mem (fT : String × String × Bool × GoType)
    (htag : fT.2.1 ≠ "-") :
    ∀ fs i acc, fT ∈ fs →
      (mapGet (buildIndexMap fs i acc) (jsonFieldNameOf fT.1 fT.2.1)).isSome = true := by
  intro fs
  induction fs with
  | nil => intro i acc h; cases h
  | cons hd tl ih =>
    intro i acc hmem
    rcases List.mem_cons.mp hmem with heq | hmem'
    · subst heq
      simp only [buildIndexMap, if_neg htag]
      exact buildIndexMap_mapGet_mono _ tl _ _ (by rw [mapGet_mapPut_self]; rfl)
    · simp only [buildIndexMap]
      split
      · exact ih _ _ hmem'
      · exact ih _ _ hmem'

/-- **C10**: only the first comma-separated word of a struct field's `json`
tag is interpreted, identically on both sides (both the encoder at
part_000:168-173 and the decoder at unmarshal.go:129-134 compute
`jsonFieldNameOf`): (1) everything after the first comma — such as
`omitempty` — has no effect on the wire name; (2) every exported field
whose tag is not exactly `"-"` appears in the encoder's output object under
its wire name (for any field value, including the zero value); (3) the
decoder's `indexMap` resolves the same wire name to a field index. -/
theorem C10_only_first_tag_word_interpreted :
    (∀ (name w rest : String), ',' ∉ w.data →
      jsonFieldNameOf name (w ++ "," ++ rest) = jsonFieldNameOf name w)
    ∧ (∀ (name : String) fs (vms pms : List String) (r : Resolver) (j : Json) fT (fV : Val),
        marshal (.vStruct name fs vms pms) r = .ok j →
        (fT, fV) ∈ fs → fT.2.2.1 = true → fT.2.1 ≠ "-" →
        ∃ es, j = .obj es ∧ (jsonFieldNameOf fT.1 fT.2.1) ∈ es.map Prod.fst)
    ∧ (∀ fs (i : Nat) (acc : List (String × Nat)) fT, fT ∈ fs → fT.2.1 ≠ "-" →
        (mapGet (buildIndexMap fs i acc) (jsonFieldNameOf fT.1 fT.2.1)).isSome = true) := by
  refine ⟨jsonFieldNameOf_first_word, ?_, fun fs i acc fT hmem htag =>
    buildIndexMap_mapGet_of_mem fT htag fs i acc hmem⟩
  intro name fs vms pms r j fT fV hj hmem hexp htag
  simp only [marshal] at hj
  split at hj
  · exact Except.noConfusion hj
  · rename_i m hm
    injection hj with hj'
    subst hj'
    refine ⟨_, rfl, ?_⟩
    have hk := marshalStructFields_key_of_mem name r fT fV hexp htag fs 0 [] m hm hmem
    have hs : (jsonFieldNameOf fT.1 fT.2.1) ∈ (sortMF m).map Prod.fst :=
      (sortMF_mem m _).mpr hk
    simpa [List.map_map, Function.comp] using hs

/-- Witness for C10 at the spec's own shape: a field tagged
`json:"a,omitempty"` — zero-valued — is still emitted, under wire name
`"a"`, and the decoder's index map resolves `"a"`. -/
theorem C10_witness :
    (',' ∉ "a".data
      ∧ jsonFieldNameOf "A" ("a" ++ "," ++ "omitempty") = jsonFieldNameOf "A" "a")
    ∧ (∃ es, Json.obj [("a", Json.num 0)] = .obj es ∧ "a" ∈ es.map Prod.fst)
    ∧ (mapGet (buildIndexMap [("A", "a,omitempty", true, .intT)] 0 [])
        (jsonFieldNameOf "A" "a,omitempty")).isSome = true := by
  refine ⟨⟨by decide, C10_only_first_tag_word_interpreted.1 "A" "a" "omitempty" (by decide)⟩, ?_, ?_⟩
  · have h := C10_only_first_tag_word_interpreted.2.1 "main.S"
      [(("A", "a,omitempty", true, .intT), .vInt 0)] [] [] intReg (.obj [("a", .num 0)])
      ("A", "a,omitempty", true, .intT) (.vInt 0) rfl (List.mem_singleton.mpr rfl) rfl
      (by decide)
    exact h
  · exact C10_only_first_tag_word_interpreted.2.2 [("A", "a,omitempty", true, .intT)] 0 []
      ("A", "a,omitempty", true, .intT) (List.mem_singleton.mpr rfl) (by decide)

theorem M_pure_eq {α : Type} (a : α) : (pure a : M α) = liftE (.ok a) := rfl

theorem M_bind_fuelOut {α β : Type} (f : α → M β) : (fuelOut >>= f) = (fuelOut : M β) := rfl

theorem wrapM_fuelOut {α : Type} (c : String) : wrapM c (fuelOut : M α) = fuelOut := rfl

theorem wrapM_liftE_err {α : Type} (c : String) (e : Err) :
    wrapM c (liftE (.error e) : M α) = liftE (.error (wrapErr c e)) := rfl

theorem fuelOut_ne_liftE {α : Type} (x : Except Err α) : fuelOut ≠ liftE x :=
  fun h => Option.noConfusion h

theorem liftE_inj {α : Type} {x y : Except Err α} (h : liftE x = liftE y) : x = y :=
  Option.some.inj h

theorem M_cases {α : Type} :
    ∀ x : M α, x = fuelOut ∨ (∃ e, x = liftE (.error e)) ∨ (∃ a, x = liftE (.ok a))
  | none => Or.inl rfl
  | some (.error e) => Or.inr (Or.inl ⟨e, rfl⟩)
  | some (.ok a) => Or.inr (Or.inr ⟨a, rfl⟩)

theorem valEq_vStr (x : Val) (k : String) : valEq x (.vStr k) = true ↔ x = .vStr k := by
  cases x <;> simp [valEq]

theorem setMapIndex_vStr_mem (s k : String) (v : Val) :
    ∀ (m : List (Val × Val)),
      (∃ w, (Val.vStr s, w) ∈ setMapIndex m (.vStr k) v) ↔
        (s = k ∨ ∃ w, (Val.vStr s, w) ∈ m) := by
  intro m
  induction m with
  | nil => simp [setMapIndex, eq_comm]
  | cons p rest ih =>
    obtain ⟨k0, v0⟩ := p
    simp only [setMapIndex]
    by_cases hb : valEq k0 (.vStr k) = true
    · rw [if_pos hb]
      have hk0 : k0 = .vStr k := (valEq_vStr k0 k).mp hb
      subst hk0
      simp only [List.mem_cons, exists_or]
      simp [eq_comm]
    · rw [if_neg hb]
      simp only [List.mem_cons, exists_or] at ih ⊢
      rw [ih]
      tauto

/-- After a successful run of the map-entry loop over string keys, the
resulting entries' keys are exactly the keys already present plus the
iterated JSON keys. -/
theorem unmarshalMapEntries_keys (vT : GoType) (r : Resolver) :
    ∀ (es : List (String × Json)) (fuel : Nat) (cur res : Option (List (Val × Val))),
      unmarshalMapEntries fuel .strT vT es cur r = liftE (.ok res) →
      ∀ s, (∃ w, (Val.vStr s, w) ∈ res.getD []) ↔
        ((∃ w, (Val.vStr s, w) ∈ cur.getD []) ∨ s ∈ es.map Prod.fst) := by
  intro es
  induction es with
  | nil =>
    intro fuel cur res hm s
    cases fuel with
    | zero =>
      simp only [unmarshalMapEntries] at hm
      exact absurd hm (fuelOut_ne_liftE _)
    | succ fuel =>
      simp only [unmarshalMapEntries, M_pure_eq] at hm
      obtain rfl : cur = res := Except.ok.inj (liftE_inj hm)
      simp
  | cons p rest ih =>
    obtain ⟨k, value⟩ := p
    intro fuel cur res hm s
    cases fuel with
    | zero =>
      simp only [unmarshalMapEntries] at hm
      exact absurd hm (fuelOut_ne_liftE _)
    | succ fuel =>
      simp only [unmarshalMapEntries, unstringifyMapKey, zeroVal, M_pure_bind] at hm
      rcases M_cases (unmarshalTo fuel (zeroVal vT) vT value r) with hx | ⟨e, hx⟩ | ⟨vv, hx⟩ <;>
        rw [hx] at hm
      · rw [wrapM_fuelOut, M_bind_fuelOut] at hm
        exact absurd hm (fuelOut_ne_liftE _)
      · rw [wrapM_liftE_err, M_bind_err] at hm
        exact Except.noConfusion (liftE_inj hm)
      · rw [wrapM_liftE_ok, M_bind_ok] at hm
        have hk := ih fuel (some (setMapIndex (cur.getD []) (.vStr k) vv)) res hm s
        rw [hk]
        simp only [Option.getD_some, setMapIndex_vStr_mem, List.map_cons, List.mem_cons]
        tauto

/-- **C6**: decoding into a map destructively replaces its contents:
(1) the result is independent of whatever entries the destination map held
before the call, and (2) on success over a JSON object with string-kind
keys, the decoded map holds exactly the keys of the JSON object. -/
theorem C6_map_decode_clears_then_populates (fuel : Nat) (et kT vT : GoType)
    (old : List (Val × Val)) (j : Json) (r : Resolver) :
    UnmarshalWithTypeIDs fuel j (some (.vPtr et (some (.vMap kT vT (some old))))) r
      = UnmarshalWithTypeIDs fuel j (some (.vPtr et (some (.vMap kT vT (some []))))) r
    ∧ (∀ es res, j = .obj es → kT = .strT →
        UnmarshalWithTypeIDs fuel j (some (.vPtr et (some (.vMap kT vT (some old))))) r
          = liftE (.ok res) →
        ∃ m, res = .vPtr et (some (.vMap .strT vT m))
          ∧ ∀ s, (∃ w, (Val.vStr s, w) ∈ m.getD []) ↔ s ∈ es.map Prod.fst) := by
  constructor
  · cases fuel <;> rfl
  · intro es res hes hkT hm
    subst hes; subst hkT
    cases fuel with
    | zero =>
      simp only [UnmarshalWithTypeIDs, unmarshal] at hm
      exact absurd hm (fuelOut_ne_liftE _)
    | succ fuel =>
      simp only [UnmarshalWithTypeIDs, unmarshal, M_pure_bind, jsonForEachList] at hm
      rcases M_cases (unmarshalMapEntries fuel .strT vT es (some []) r) with hx | ⟨e, hx⟩ | ⟨es1, hx⟩ <;>
        rw [hx] at hm
      · rw [M_bind_fuelOut] at hm
        exact absurd hm (fuelOut_ne_liftE _)
      · rw [M_bind_err] at hm
        exact Except.noConfusion (liftE_inj hm)
      · rw [M_bind_ok, M_pure_eq] at hm
        obtain rfl : Val.vPtr et (some (.vMap .strT vT es1)) = res := Except.ok.inj (liftE_inj hm)
        refine ⟨es1, rfl, fun s => ?_⟩
        have hk := unmarshalMapEntries_keys vT r es fuel (some []) es1 hx s
        simpa using hk

/-- Witness for C6 at the spec's example: decoding `{"k2":5}` into a
`map[string]int` already holding `"k1"` leaves a map holding exactly
`"k2"`. -/
theorem C6_witness :
    ∃ m, (Val.vPtr (.mapT .strT .intT)
        (some (.vMap .strT .intT (some [(Val.vStr "k2", Val.vInt 5)]))))
      = .vPtr (.mapT .strT .intT) (some (.vMap .strT .intT m))
      ∧ ∀ s, (∃ w, (Val.vStr s, w) ∈ m.getD []) ↔
          s ∈ ([("k2", Json.num 5)].map Prod.fst) :=
  (C6_map_decode_clears_then_populates 10 (.mapT .strT .intT) .strT .intT
    [(Val.vStr "k1", Val.vInt 1)] (.obj [("k2", .num 5)]) intReg).2 [("k2", .num 5)]
    (.vPtr (.mapT .strT .intT) (some (.vMap .strT .intT (some [(Val.vStr "k2", Val.vInt 5)]))))
    rfl rfl rfl

end Polyjson
